import Mathlib

/-!
Shallow embedding of `pkg/controller/controller.go` from the
sample-controller repository, together with proofs of the specified
properties of the CRD installer (`addCRD`), the deployment builder
(`newDeployment`), the synchronizer (`synchronize`) and the event
reactor (`processResources`).

Go maps keyed by strings are embedded as association lists; the
nondeterministic iteration order of `range status.todo` is embedded by
keeping the todo set as an explicit list of names (the iteration
order), quantified over in the theorems.  The Kubernetes client
(`pkg/kubeapi`, not part of the sources here) is embedded from the
spec's collaborator contract: a create/update call either succeeds or
returns an error, and errors of the schema create call expose a
numeric status code.
-/

set_option linter.all false

namespace SampleController

/-- Constant `Group` from controller.go line 16. -/
def Group : String := "samplecontroller.example.com"

/-- Constant `Version` from controller.go line 15. -/
def Version : String := "v1alpha1"

/-- Constant `Kind` from controller.go line 17. -/
def Kind : String := "Foo"

/-- The fields of `metav1.OwnerReference` the controller reads or writes. -/
structure OwnerReference where
  apiVersion : String
  kind : String
  name : String
  uid : String
  controller : Bool
  blockOwnerDeletion : Bool
deriving Repr, DecidableEq

/-- The fields of `metav1.ObjectMeta` the controller reads or writes
(`ns` stands for the `Namespace` field). -/
structure ObjectMeta where
  name : String := ""
  ns : String := ""
  uid : String := ""
  resourceVersion : String := ""
  ownerReferences : List OwnerReference := []
deriving Repr, DecidableEq

/-- `FooSpec` from controller.go lines 86-89.  The replica count is an
`int32` in Go; it is only ever compared and copied, never used in
arithmetic, so it is embedded as `Int`. -/
structure FooSpec where
  deploymentName : String
  replicas : Int
deriving Repr, DecidableEq

/-- `Foo` from controller.go lines 91-94 (embedded `ObjectMeta` plus spec). -/
structure Foo where
  meta : ObjectMeta
  spec : FooSpec
deriving Repr, DecidableEq

/-- A `corev1.Container` as built by `newDeployment` (name and image). -/
structure Container where
  name : String
  image : String
deriving Repr, DecidableEq

/-- The parts of `corev1.PodTemplateSpec` built by `newDeployment`:
template labels and pod containers. -/
structure PodTemplateSpec where
  labels : List (String × String)
  containers : List Container
deriving Repr, DecidableEq

/-- The parts of `appsv1.DeploymentSpec` the controller reads or
writes: selector match-labels, pod template and replica count. -/
structure DeploymentSpec where
  selector : List (String × String)
  template : PodTemplateSpec
  replicas : Int
deriving Repr, DecidableEq

/-- An `appsv1.Deployment` restricted to the fields the controller
reads or writes. -/
structure Deployment where
  meta : ObjectMeta
  spec : DeploymentSpec
deriving Repr, DecidableEq

/-- `metav1.GetControllerOf`: the first owner reference whose
controller flag is set. -/
def getControllerOf (refs : List OwnerReference) : Option OwnerReference :=
  refs.find? (fun r => r.controller)

/-- `metav1.IsControlledBy obj owner`: true when `obj` has a controller
owner reference whose UID is the owner's UID. -/
def isControlledBy (obj owner : ObjectMeta) : Bool :=
  match getControllerOf obj.ownerReferences with
  | none => false
  | some ref => ref.uid = owner.uid

/-- `metav1.NewControllerRef owner gvk`: a controller owner reference
pointing at `owner`. -/
def newControllerRef (owner : ObjectMeta) (group version kind : String) : OwnerReference :=
  { apiVersion := group ++ "/" ++ version
    kind := kind
    name := owner.name
    uid := owner.uid
    controller := true
    blockOwnerDeletion := true }

/-- `newDeployment` from controller.go lines 128-160: the pure
deployment builder. -/
def newDeployment (foo : Foo) : Deployment :=
  let ref := newControllerRef foo.meta Group Version Kind
  let labels := [("controller", foo.meta.name)]
  let container : Container := { name := "nginx", image := "nginx:latest" }
  { meta := { name := foo.spec.deploymentName
              ns := foo.meta.ns
              ownerReferences := [ref] }
    spec := { selector := labels
              template := { labels := labels, containers := [container] }
              replicas := foo.spec.replicas } }

/-- Association-list lookup, embedding a read of a Go map keyed by name. -/
def alookup {α : Type} : List (String × α) → String → Option α
  | [], _ => none
  | (k, v) :: rest, key => if k = key then some v else alookup rest key

/-- Association-list insert-or-replace, embedding `m[k] = v` on a Go map. -/
def upsert {α : Type} : List (String × α) → String → α → List (String × α)
  | [], key, v => [(key, v)]
  | (k, w) :: rest, key, v =>
      if k = key then (key, v) :: rest else (k, w) :: upsert rest key v

/-- Association-list removal, embedding `delete(m, k)` on a Go map. -/
def erase {α : Type} : List (String × α) → String → List (String × α)
  | [], _ => []
  | (k, w) :: rest, key => if k = key then rest else (k, w) :: erase rest key

/-- Set insertion for the todo set, embedding `todo[name] = true`. -/
def setInsert (s : List String) (key : String) : List String :=
  if key ∈ s then s else s ++ [key]

/-- `controllerStatus` from controller.go lines 117-126.  The todo map
(a set of names) is embedded as the list of its elements in iteration
order. -/
structure ControllerStatus where
  foos : List (String × Foo)
  deployments : List (String × Deployment)
  todo : List String
deriving Repr, DecidableEq

/-- A create or update call issued against the deployments API
(`client.AddDeployment` / `client.UpdateDeployment`). -/
inductive ApiCall where
  | create (d : Deployment)
  | update (d : Deployment)
deriving Repr, DecidableEq

/-- Payload of a create or update call. -/
def payload : ApiCall → Deployment
  | .create d => d
  | .update d => d

/-- Whether a call is a create call. -/
def isCreate : ApiCall → Bool
  | .create _ => true
  | .update _ => false

/-- Whether a call's payload carries a controller owner reference whose
owning name is `owner`. -/
def ownedBy (owner : String) (c : ApiCall) : Bool :=
  (payload c).meta.ownerReferences.any (fun o => o.controller && decide (o.name = owner))

/-- Carrying the concurrency token over into a built deployment,
embedding `newDep.ResourceVersion = dep.ResourceVersion`
(controller.go line 190). -/
def withResourceVersion (d : Deployment) (rv : String) : Deployment :=
  { d with meta := { d.meta with resourceVersion := rv } }

/-- The conflict warning logged at controller.go lines 176-177. -/
def conflictMsg (dep : Deployment) : String :=
  "Deployment " ++ dep.meta.ns ++ ":" ++ dep.meta.name ++ " is not owned by us."

/-- Result of one `synchronize` pass: the remaining todo list, the
create/update calls issued in order, the log lines emitted in order,
and the returned error (`none` = nil). -/
structure SyncResult where
  todo : List String
  calls : List ApiCall
  logs : List String
  error : Option String
deriving Repr, DecidableEq

/-- The loop body of `synchronize` (controller.go lines 162-206),
recursing over the todo list in iteration order.  The client is a
function from a call to `none` (success) or `some msg` (error). -/
def synchronizeAux (client : ApiCall → Option String)
    (foos : List (String × Foo)) (deployments : List (String × Deployment)) :
    List String → SyncResult
  | [] => { todo := [], calls := [], logs := [], error := none }
  | item :: rest =>
    match alookup foos item with
    | none =>
      -- Nothing to do; the garbage collector deletes the deployment.
      synchronizeAux client foos deployments rest
    | some foo =>
      match alookup deployments foo.spec.deploymentName with
      | some dep =>
        if !isControlledBy dep.meta foo.meta then
          -- Not owned by us: log, keep in todo, continue.
          let r := synchronizeAux client foos deployments rest
          { r with todo := item :: r.todo, logs := conflictMsg dep :: r.logs }
        else if foo.spec.replicas = dep.spec.replicas then
          -- Converged: drop from todo.
          synchronizeAux client foos deployments rest
        else
          let newDep := withResourceVersion (newDeployment foo) dep.meta.resourceVersion
          match client (ApiCall.update newDep) with
          | some e => { todo := item :: rest, calls := [ApiCall.update newDep],
                        logs := [], error := some e }
          | none =>
            let r := synchronizeAux client foos deployments rest
            { r with calls := ApiCall.update newDep :: r.calls }
      | none =>
        let newDep := newDeployment foo
        match client (ApiCall.create newDep) with
        | some e => { todo := item :: rest, calls := [ApiCall.create newDep],
                      logs := [], error := some e }
        | none =>
          let r := synchronizeAux client foos deployments rest
          { r with calls := ApiCall.create newDep :: r.calls }

/-- `synchronize` from controller.go lines 162-206: runs the pass over
the status and returns the mutated status together with the pass
result. -/
def synchronize (client : ApiCall → Option String) (st : ControllerStatus) :
    ControllerStatus × SyncResult :=
  let r := synchronizeAux client st.foos st.deployments st.todo
  ({ st with todo := r.todo }, r)

/-- The action `synchronize` takes for one todo item, as determined by
the (immutable during the pass) foos and deployments maps. -/
inductive ItemAction where
  | drop
  | conflict (dep : Deployment)
  | converged
  | doCreate (d : Deployment)
  | doUpdate (d : Deployment)
deriving Repr, DecidableEq

/-- Classification of a todo item by the branch `synchronize` takes
for it. -/
def classify (foos : List (String × Foo)) (deployments : List (String × Deployment))
    (item : String) : ItemAction :=
  match alookup foos item with
  | none => .drop
  | some foo =>
    match alookup deployments foo.spec.deploymentName with
    | some dep =>
      if !isControlledBy dep.meta foo.meta then .conflict dep
      else if foo.spec.replicas = dep.spec.replicas then .converged
      else .doUpdate (withResourceVersion (newDeployment foo) dep.meta.resourceVersion)
    | none => .doCreate (newDeployment foo)

/-- Whether a todo item is kept dirty by a completed pass (the
ownership-conflict branch). -/
def keepsDirty (foos : List (String × Foo)) (deployments : List (String × Deployment))
    (item : String) : Bool :=
  match classify foos deployments item with
  | .conflict _ => true
  | _ => false

/-- The calls a completed pass issues for one todo item. -/
def callsFor (foos : List (String × Foo)) (deployments : List (String × Deployment))
    (item : String) : List ApiCall :=
  match classify foos deployments item with
  | .doCreate d => [ApiCall.create d]
  | .doUpdate d => [ApiCall.update d]
  | _ => []

/-- Well-formedness of the foos map: each entry is keyed by its Foo's
name (`processResources` only ever writes `status.foos[item.Name] = item`). -/
@[reducible] def FoosWellFormed (foos : List (String × Foo)) : Prop :=
  ∀ p ∈ foos, p.2.meta.name = p.1

/-- Modelled from the spec: a `kubeapi.WatchEvent` carries an item, a
delete flag and a possible delivery error (`watchCollection` returns a
stream of `\x7bitem, isDelete, err\x7d`); `pkg/kubeapi` itself is not
among the sources. -/
structure WatchEvent (α : Type) where
  item : α
  isDelete : Bool
  err : Option String
deriving Repr, DecidableEq

/-- One input consumed by the reactor's select loop: an event or a
close notification on either watch channel, or a rate-limiter tick. -/
inductive ReactorInput where
  | deployment (e : WatchEvent Deployment)
  | deploymentsClosed
  | foo (e : WatchEvent Foo)
  | foosClosed
  | tick
deriving Repr, DecidableEq

/-- The deployment-event handler of `processResources`
(controller.go lines 230-249): store or remove the deployment, then
scan its owner references for one of kind `Foo`; on the first match,
ask one tick and mark the owning name dirty.  Returns the new status
and the number of `AskTick` calls made. -/
def handleDeploymentEvent (st : ControllerStatus) (e : WatchEvent Deployment) :
    ControllerStatus × Nat :=
  let deployments :=
    if e.isDelete then erase st.deployments e.item.meta.name
    else upsert st.deployments e.item.meta.name e.item
  match e.item.meta.ownerReferences.find? (fun o => decide (o.kind = Kind)) with
  | some o => ({ st with deployments := deployments, todo := setInsert st.todo o.name }, 1)
  | none => ({ st with deployments := deployments }, 0)

/-- The Foo-event handler of `processResources` (controller.go lines
260-267): ask one tick, store or remove the Foo, mark its name dirty. -/
def handleFooEvent (st : ControllerStatus) (e : WatchEvent Foo) :
    ControllerStatus × Nat :=
  let foos :=
    if e.isDelete then erase st.foos e.item.meta.name
    else upsert st.foos e.item.meta.name e.item
  ({ st with foos := foos, todo := setInsert st.todo e.item.meta.name }, 1)

/-- Whether the reactor loop has returned, and why. -/
inductive ReactorOutcome where
  | running
  | closedBoth
  | failed (msg : String)
deriving Repr, DecidableEq

/-- Observable result of running the reactor loop over a finite input
schedule: why and whether it returned, the messages sent on `c.Errors`
before its closure, whether `c.Errors` was closed (the deferred
`close(c.Errors)` runs exactly when the loop returns), the final
status and channel-open flags, the number of `AskTick` calls, the log
lines, and the inputs left unconsumed at return. -/
structure ReactorRun where
  outcome : ReactorOutcome
  sent : List String
  errorsClosed : Bool
  status : ControllerStatus
  depsOpen : Bool
  foosOpen : Bool
  ticks : Nat
  logs : List String
  remaining : List ReactorInput
deriving Repr, DecidableEq

/-- `processResources` from controller.go lines 210-281, run over an
explicit finite schedule of inputs.  A nil-ed (closed) channel can
never deliver again, so inputs from an already-closed source are
skipped as unrealizable.  After each handled input the loop checks
whether both channels are nil and, if so, returns; error forwarding
returns immediately without that check, exactly as in the source. -/
def runReactor (client : ApiCall → Option String) (st : ControllerStatus)
    (depsOpen foosOpen : Bool) (ticks : Nat) (logs : List String) :
    List ReactorInput → ReactorRun
  | [] =>
    { outcome := .running, sent := [], errorsClosed := false, status := st
      depsOpen := depsOpen, foosOpen := foosOpen, ticks := ticks, logs := logs
      remaining := [] }
  | input :: rest =>
    match input with
    | .deployment e =>
      if depsOpen then
        match e.err with
        | some msg =>
          { outcome := .failed ("Reading deployments: " ++ msg)
            sent := ["Reading deployments: " ++ msg], errorsClosed := true
            status := st, depsOpen := depsOpen, foosOpen := foosOpen
            ticks := ticks, logs := logs, remaining := rest }
        | none =>
          let h := handleDeploymentEvent st e
          runReactor client h.1 depsOpen foosOpen (ticks + h.2) logs rest
      else runReactor client st depsOpen foosOpen ticks logs rest
    | .deploymentsClosed =>
      if depsOpen then
        if foosOpen then runReactor client st false foosOpen ticks logs rest
        else
          { outcome := .closedBoth, sent := [], errorsClosed := true, status := st
            depsOpen := false, foosOpen := false, ticks := ticks, logs := logs
            remaining := rest }
      else runReactor client st depsOpen foosOpen ticks logs rest
    | .foo e =>
      if foosOpen then
        match e.err with
        | some msg =>
          { outcome := .failed ("Reading Foos: " ++ msg)
            sent := ["Reading Foos: " ++ msg], errorsClosed := true
            status := st, depsOpen := depsOpen, foosOpen := foosOpen
            ticks := ticks, logs := logs, remaining := rest }
        | none =>
          let h := handleFooEvent st e
          runReactor client h.1 depsOpen foosOpen (ticks + h.2) logs rest
      else runReactor client st depsOpen foosOpen ticks logs rest
    | .foosClosed =>
      if foosOpen then
        if depsOpen then runReactor client st depsOpen false ticks logs rest
        else
          { outcome := .closedBoth, sent := [], errorsClosed := true, status := st
            depsOpen := false, foosOpen := false, ticks := ticks, logs := logs
            remaining := rest }
      else runReactor client st depsOpen foosOpen ticks logs rest
    | .tick =>
      let s := synchronize client st
      let ticks' := match s.2.error with | some _ => ticks + 1 | none => ticks
      let logs' := match s.2.error with
        | some msg => logs ++ ["Synchronize failed, will retry: " ++ msg]
        | none => logs
      if depsOpen || foosOpen then runReactor client s.1 depsOpen foosOpen ticks' logs' rest
      else
        { outcome := .closedBoth, sent := [], errorsClosed := true, status := s.1
          depsOpen := depsOpen, foosOpen := foosOpen, ticks := ticks', logs := logs'
          remaining := rest }

/-- What `processResources` sends on `c.Errors` as a function of why it
returned. -/
def expectedSent : ReactorOutcome → List String
  | .failed msg => [msg]
  | _ => []

/-- A condition on a CustomResourceDefinition status (type and status
strings). -/
structure CrdCondition where
  condType : String
  condStatus : String
deriving Repr, DecidableEq

/-- The part of a CustomResourceDefinition the establishment wait
reads: its status conditions. -/
structure CrdItem where
  conditions : List CrdCondition
deriving Repr, DecidableEq

/-- Errors returned by `addCRD`.  Modelled from the spec: `pkg/kubeapi`
is not among the sources; per the collaborator contract every request
error exposes a numeric status code, and watch delivery errors carry a
message. -/
inductive CrdError where
  | request (statusCode : Nat)
  | watch (msg : String)
deriving Repr, DecidableEq

/-- The establishment wait of `addCRD` (controller.go lines 36-51):
drain the CRD watch stream until an event whose item carries a
condition of type Established with status True, returning the first
delivery error encountered, if any. -/
def waitEstablished : List (WatchEvent CrdItem) → Option String
  | [] => none
  | e :: rest =>
    match e.err with
    | some msg => some msg
    | none =>
      if e.isDelete then waitEstablished rest
      else if e.item.conditions.any
          (fun c => decide (c.condType = "Established") && decide (c.condStatus = "True")) then
        none
      else waitEstablished rest

/-- `addCRD` from controller.go lines 19-53, as a function of the
result of the schema create call (`none` = nil error, `some code` = a
request error with that status code) and of the CRD watch stream.  A
409 (Conflict) status is ignored and the establishment wait runs; any
other request error is returned at once. -/
def addCRD (createResult : Option Nat) (events : List (WatchEvent CrdItem)) :
    Option CrdError :=
  match createResult with
  | some code =>
    if code ≠ 409 then some (CrdError.request code)
    else (waitEstablished events).map CrdError.watch
  | none => (waitEstablished events).map CrdError.watch

/-- Rendering of a `CrdError` into the message wrapped by `startAux`.
The request-error text stands in for `kubeapi.RequestError.Error()`,
which is not among the sources. -/
def crdErrorMessage : CrdError → String
  | .request code => "request failed with status " ++ toString code
  | .watch msg => msg

/-- Observable result of `startAux`: what went out on `c.Errors`,
whether it was closed, whether the instance watches were opened, and
the reactor run when they were. -/
structure StartOutcome where
  sent : List String
  errorsClosed : Bool
  watchingStarted : Bool
  reactor : Option ReactorRun
deriving Repr, DecidableEq

/-- `startAux` from controller.go lines 299-314: install the CRD; on
failure send the wrapped error, close `c.Errors` and return without
opening any watch; on success open both watches and run
`processResources`. -/
def startAux (client : ApiCall → Option String) (createResult : Option Nat)
    (crdEvents : List (WatchEvent CrdItem)) (inputs : List ReactorInput) :
    StartOutcome :=
  match addCRD createResult crdEvents with
  | some err =>
    { sent := ["Could not add CRD: " ++ crdErrorMessage err]
      errorsClosed := true, watchingStarted := false, reactor := none }
  | none =>
    let r := runReactor client { foos := [], deployments := [], todo := [] }
      true true 0 [] inputs
    { sent := r.sent, errorsClosed := r.errorsClosed, watchingStarted := true
      reactor := some r }

/-- Sample Foo used by the witnesses: name `x`, target `d1`, 3 replicas. -/
def fooW : Foo :=
  { meta := { name := "x", ns := "default", uid := "u-x" }
    spec := { deploymentName := "d1", replicas := 3 } }

/-- Client that accepts every call. -/
def clientOk : ApiCall → Option String := fun _ => none

/-- Client that rejects every call with the error `boom`. -/
def clientFail : ApiCall → Option String := fun _ => some "boom"

/-- Witness state for the create scenario: `x` dirty, no deployment. -/
def stCreate : ControllerStatus :=
  { foos := [("x", fooW)], deployments := [], todo := ["x"] }

/-- Deployment `d1` controlled by `fooW`, at 7 replicas, with
concurrency token `rv7`. -/
def depOwned : Deployment :=
  let d := newDeployment fooW
  { d with meta := { d.meta with resourceVersion := "rv7" }
           spec := { d.spec with replicas := 7 } }

/-- Witness state for the update scenario: `x` dirty, `d1` present and
owned but at the wrong replica count. -/
def stUpdate : ControllerStatus :=
  { foos := [("x", fooW)], deployments := [("d1", depOwned)], todo := ["x"] }

/-- Deployment `d1` controlled by a foreign owner. -/
def depForeign : Deployment :=
  let d := newDeployment fooW
  { d with meta := { d.meta with ownerReferences :=
      [{ apiVersion := "apps/v1", kind := "ReplicaSet", name := "other", uid := "u-o"
         controller := true, blockOwnerDeletion := false }] } }

/-- Witness state for the ownership-conflict scenario. -/
def stConflict : ControllerStatus :=
  { foos := [("x", fooW)], deployments := [("d1", depForeign)], todo := ["x"] }

/-- Witness state for the deleted-Foo scenario: `ghost` dirty with no
matching Foo. -/
def stDrop : ControllerStatus :=
  { foos := [], deployments := [("d1", depOwned)], todo := ["ghost"] }

/-- The empty reconciliation state. -/
def emptyStatus : ControllerStatus := { foos := [], deployments := [], todo := [] }

/-- Owner reference of kind `Foo` with a cleared controller flag. -/
def refFooNoCtl : OwnerReference :=
  { apiVersion := Group ++ "/" ++ Version, kind := "Foo", name := "x", uid := "u-x"
    controller := false, blockOwnerDeletion := false }

/-- Deployment whose only owner reference has kind `Foo` but a cleared
controller flag. -/
def depKindNoController : Deployment :=
  { meta := { name := "d1", ns := "default", ownerReferences := [refFooNoCtl] }
    spec := { selector := [], template := { labels := [], containers := [] }, replicas := 1 } }

/-- Watch event delivering `depKindNoController`. -/
def evKindNoController : WatchEvent Deployment :=
  { item := depKindNoController, isDelete := false, err := none }

/-- CRD watch event whose item carries the Established=True condition. -/
def evEstablished : WatchEvent CrdItem :=
  { item := { conditions := [{ condType := "Established", condStatus := "True" }] }
    isDelete := false, err := none }

end SampleController

namespace SampleController

@[simp] theorem payload_create (d : Deployment) : payload (ApiCall.create d) = d := rfl

@[simp] theorem payload_update (d : Deployment) : payload (ApiCall.update d) = d := rfl

@[simp] theorem isCreate_create (d : Deployment) : isCreate (ApiCall.create d) = true := rfl

@[simp] theorem isCreate_update (d : Deployment) : isCreate (ApiCall.update d) = false := rfl

@[simp] theorem newDeployment_meta_name (foo : Foo) :
    (newDeployment foo).meta.name = foo.spec.deploymentName := rfl

@[simp] theorem newDeployment_meta_ns (foo : Foo) :
    (newDeployment foo).meta.ns = foo.meta.ns := rfl

@[simp] theorem newDeployment_ownerRefs (foo : Foo) :
    (newDeployment foo).meta.ownerReferences =
      [newControllerRef foo.meta Group Version Kind] := rfl

@[simp] theorem newDeployment_replicas (foo : Foo) :
    (newDeployment foo).spec.replicas = foo.spec.replicas := rfl

@[simp] theorem withResourceVersion_ownerRefs (d : Deployment) (rv : String) :
    (withResourceVersion d rv).meta.ownerReferences = d.meta.ownerReferences := rfl

@[simp] theorem withResourceVersion_spec (d : Deployment) (rv : String) :
    (withResourceVersion d rv).spec = d.spec := rfl

@[simp] theorem withResourceVersion_rv (d : Deployment) (rv : String) :
    (withResourceVersion d rv).meta.resourceVersion = rv := rfl

@[simp] theorem withResourceVersion_name (d : Deployment) (rv : String) :
    (withResourceVersion d rv).meta.name = d.meta.name := rfl

@[simp] theorem newControllerRef_name (m : ObjectMeta) (g v k : String) :
    (newControllerRef m g v k).name = m.name := rfl

@[simp] theorem newControllerRef_kind (m : ObjectMeta) (g v k : String) :
    (newControllerRef m g v k).kind = k := rfl

@[simp] theorem newControllerRef_controller (m : ObjectMeta) (g v k : String) :
    (newControllerRef m g v k).controller = true := rfl

theorem ownedBy_create_newDeployment (owner : String) (foo : Foo) :
    ownedBy owner (ApiCall.create (newDeployment foo)) = decide (foo.meta.name = owner) := by
  simp [ownedBy]

theorem ownedBy_update_withRV (owner : String) (foo : Foo) (rv : String) :
    ownedBy owner (ApiCall.update (withResourceVersion (newDeployment foo) rv)) =
      decide (foo.meta.name = owner) := by
  simp [ownedBy]

theorem alookup_name_eq {foos : List (String × Foo)} (hwf : FoosWellFormed foos)
    {k : String} {f : Foo} (h : alookup foos k = some f) : f.meta.name = k := by
  induction foos with
  | nil => simp [alookup] at h
  | cons p rest ih =>
    obtain ⟨k', v⟩ := p
    simp only [alookup] at h
    by_cases he : k' = k
    · subst he
      rw [if_pos rfl] at h
      injection h with h
      subst h
      exact hwf (k', v) (List.mem_cons_self _ _)
    · rw [if_neg he] at h
      exact ih (fun q hq => hwf q (List.mem_cons_of_mem _ hq)) h

theorem syncAux_todo_sublist (client : ApiCall → Option String)
    (foos : List (String × Foo)) (deps : List (String × Deployment)) :
    ∀ l, (synchronizeAux client foos deps l).todo.Sublist l := by
  intro l
  induction l with
  | nil => simp [synchronizeAux]
  | cons n rest ih =>
    cases hf : alookup foos n with
    | none =>
      simp only [synchronizeAux, hf]
      exact ih.cons n
    | some foo =>
      cases hd : alookup deps foo.spec.deploymentName with
      | none =>
        cases hcl : client (ApiCall.create (newDeployment foo)) with
        | some e =>
          simp only [synchronizeAux, hf, hd, hcl]
          exact List.Sublist.refl _
        | none =>
          simp only [synchronizeAux, hf, hd, hcl]
          exact ih.cons n
      | some dep =>
        cases hctl : isControlledBy dep.meta foo.meta with
        | false =>
          simp only [synchronizeAux, hf, hd, hctl, Bool.not_false, if_pos]
          exact ih.cons₂ n
        | true =>
          by_cases hrep : foo.spec.replicas = dep.spec.replicas
          · simp only [synchronizeAux, hf, hd, hctl, Bool.not_true, Bool.false_eq_true,
              if_false, if_pos hrep]
            exact ih.cons n
          · cases hcl : client (ApiCall.update
                (withResourceVersion (newDeployment foo) dep.meta.resourceVersion)) with
            | some e =>
              simp only [synchronizeAux, hf, hd, hctl, Bool.not_true, Bool.false_eq_true,
                if_false, if_neg hrep, hcl]
              exact List.Sublist.refl _
            | none =>
              simp only [synchronizeAux, hf, hd, hctl, Bool.not_true, Bool.false_eq_true,
                if_false, if_neg hrep, hcl]
              exact ih.cons n

theorem syncAux_filter_not_mem (client : ApiCall → Option String)
    {foos : List (String × Foo)} (deps : List (String × Deployment))
    (hwf : FoosWellFormed foos) (item : String) :
    ∀ l, item ∉ l → (synchronizeAux client foos deps l).calls.filter (ownedBy item) = [] := by
  intro l
  induction l with
  | nil => intro _; simp [synchronizeAux]
  | cons n rest ih =>
    intro hni
    have hn : ¬(n = item) := fun h => hni (h ▸ List.mem_cons_self n rest)
    have hrest : item ∉ rest := fun h => hni (List.mem_cons_of_mem _ h)
    cases hf : alookup foos n with
    | none =>
      simp only [synchronizeAux, hf]
      exact ih hrest
    | some foo =>
      have hname : foo.meta.name = n := alookup_name_eq hwf hf
      cases hd : alookup deps foo.spec.deploymentName with
      | none =>
        cases hcl : client (ApiCall.create (newDeployment foo)) with
        | some e =>
          simp only [synchronizeAux, hf, hd, hcl]
          simp [ownedBy_create_newDeployment, hname, hn]
        | none =>
          simp only [synchronizeAux, hf, hd, hcl]
          simp only [List.filter_cons, ownedBy_create_newDeployment, hname,
            decide_eq_true_eq]
          rw [if_neg hn]
          exact ih hrest
      | some dep =>
        cases hctl : isControlledBy dep.meta foo.meta with
        | false =>
          simp only [synchronizeAux, hf, hd, hctl, Bool.not_false, if_pos]
          exact ih hrest
        | true =>
          by_cases hrep : foo.spec.replicas = dep.spec.replicas
          · simp only [synchronizeAux, hf, hd, hctl, Bool.not_true, Bool.false_eq_true,
              if_false, if_pos hrep]
            exact ih hrest
          · cases hcl : client (ApiCall.update
                (withResourceVersion (newDeployment foo) dep.meta.resourceVersion)) with
            | some e =>
              simp only [synchronizeAux, hf, hd, hctl, Bool.not_true, Bool.false_eq_true,
                if_false, if_neg hrep, hcl]
              simp [ownedBy_update_withRV, hname, hn]
            | none =>
              simp only [synchronizeAux, hf, hd, hctl, Bool.not_true, Bool.false_eq_true,
                if_false, if_neg hrep, hcl]
              simp only [List.filter_cons, ownedBy_update_withRV, hname,
                decide_eq_true_eq]
              rw [if_neg hn]
              exact ih hrest

theorem syncAux_item_spec (client : ApiCall → Option String)
    {foos : List (String × Foo)} (deps : List (String × Deployment))
    (hwf : FoosWellFormed foos) (item : String) :
    ∀ l : List String, l.Nodup → item ∈ l →
      (synchronizeAux client foos deps l).error = none →
      ((item ∈ (synchronizeAux client foos deps l).todo ↔ keepsDirty foos deps item = true) ∧
       (synchronizeAux client foos deps l).calls.filter (ownedBy item) =
         callsFor foos deps item ∧
       (∀ dep, classify foos deps item = .conflict dep →
          conflictMsg dep ∈ (synchronizeAux client foos deps l).logs)) := by
  intro l
  induction l with
  | nil => intro _ hmem; exact absurd hmem (List.not_mem_nil item)
  | cons n rest ih =>
    intro hnd hmem herr
    have hnotin : n ∉ rest := (List.nodup_cons.mp hnd).1
    have hnd' : rest.Nodup := (List.nodup_cons.mp hnd).2
    by_cases hin : item = n
    · -- the head is the item under scrutiny
      subst hin
      cases hf : alookup foos item with
      | none =>
        simp only [synchronizeAux, hf] at herr ⊢
        refine ⟨?_, ?_, ?_⟩
        · simp only [keepsDirty, classify, hf]
          constructor
          · intro hmem'
            exact absurd (List.Sublist.mem hmem' (syncAux_todo_sublist client foos deps rest))
              hnotin
          · intro hfalse; cases hfalse
        · rw [syncAux_filter_not_mem client deps hwf item rest hnotin]
          simp [callsFor, classify, hf]
        · intro dep hdep
          simp [classify, hf] at hdep
      | some foo =>
        have hname : foo.meta.name = item := alookup_name_eq hwf hf
        cases hd : alookup deps foo.spec.deploymentName with
        | none =>
          cases hcl : client (ApiCall.create (newDeployment foo)) with
          | some e =>
            simp [synchronizeAux, hf, hd, hcl] at herr
          | none =>
            simp only [synchronizeAux, hf, hd, hcl] at herr ⊢
            refine ⟨?_, ?_, ?_⟩
            · simp only [keepsDirty, classify, hf, hd]
              constructor
              · intro hmem'
                exact absurd
                  (List.Sublist.mem hmem' (syncAux_todo_sublist client foos deps rest))
                  hnotin
              · intro hfalse; cases hfalse
            · simp only [List.filter_cons, ownedBy_create_newDeployment, hname,
                decide_eq_true_eq, if_pos rfl]
              rw [syncAux_filter_not_mem client deps hwf item rest hnotin]
              simp [callsFor, classify, hf, hd]
            · intro dep hdep
              simp [classify, hf, hd] at hdep
        | some dep =>
          cases hctl : isControlledBy dep.meta foo.meta with
          | false =>
            simp only [synchronizeAux, hf, hd, hctl, Bool.not_false, if_pos] at herr ⊢
            refine ⟨?_, ?_, ?_⟩
            · simp only [keepsDirty, classify, hf, hd, hctl, Bool.not_false, if_pos]
              simp [List.mem_cons]
            · rw [syncAux_filter_not_mem client deps hwf item rest hnotin]
              simp [callsFor, classify, hf, hd, hctl]
            · intro dep' hdep'
              simp only [classify, hf, hd, hctl, Bool.not_false, if_pos,
                ItemAction.conflict.injEq] at hdep'
              subst hdep'
              exact List.mem_cons_self _ _
          | true =>
            by_cases hrep : foo.spec.replicas = dep.spec.replicas
            · simp only [synchronizeAux, hf, hd, hctl, Bool.not_true, Bool.false_eq_true,
                if_false, if_pos hrep] at herr ⊢
              refine ⟨?_, ?_, ?_⟩
              · simp only [keepsDirty, classify, hf, hd, hctl, Bool.not_true,
                  Bool.false_eq_true, if_false, if_pos hrep]
                constructor
                · intro hmem'
                  exact absurd
                    (List.Sublist.mem hmem' (syncAux_todo_sublist client foos deps rest))
                    hnotin
                · intro hfalse; cases hfalse
              · rw [syncAux_filter_not_mem client deps hwf item rest hnotin]
                simp [callsFor, classify, hf, hd, hctl, hrep]
              · intro dep' hdep'
                simp [classify, hf, hd, hctl, hrep] at hdep'
            · cases hcl : client (ApiCall.update
                  (withResourceVersion (newDeployment foo) dep.meta.resourceVersion)) with
              | some e =>
                simp [synchronizeAux, hf, hd, hctl, hrep, hcl] at herr
              | none =>
                simp only [synchronizeAux, hf, hd, hctl, Bool.not_true, Bool.false_eq_true,
                  if_false, if_neg hrep, hcl] at herr ⊢
                refine ⟨?_, ?_, ?_⟩
                · simp only [keepsDirty, classify, hf, hd, hctl, Bool.not_true,
                    Bool.false_eq_true, if_false, if_neg hrep]
                  constructor
                  · intro hmem'
                    exact absurd
                      (List.Sublist.mem hmem' (syncAux_todo_sublist client foos deps rest))
                      hnotin
                  · intro hfalse; cases hfalse
                · simp only [List.filter_cons, ownedBy_update_withRV, hname,
                    decide_eq_true_eq, if_pos rfl]
                  rw [syncAux_filter_not_mem client deps hwf item rest hnotin]
                  simp [callsFor, classify, hf, hd, hctl, hrep]
                · intro dep' hdep'
                  simp [classify, hf, hd, hctl, hrep] at hdep'
    · -- the head is a different name: recurse
      have hmem' : item ∈ rest := by
        cases List.mem_cons.mp hmem with
        | inl h => exact absurd h hin
        | inr h => exact h
      cases hf : alookup foos n with
      | none =>
        simp only [synchronizeAux, hf] at herr ⊢
        exact ih hnd' hmem' herr
      | some foo =>
        have hname : foo.meta.name = n := alookup_name_eq hwf hf
        have hno : ¬(n = item) := fun h => hin h.symm
        cases hd : alookup deps foo.spec.deploymentName with
        | none =>
          cases hcl : client (ApiCall.create (newDeployment foo)) with
          | some e =>
            simp [synchronizeAux, hf, hd, hcl] at herr
          | none =>
            simp only [synchronizeAux, hf, hd, hcl] at herr ⊢
            obtain ⟨h1, h2, h3⟩ := ih hnd' hmem' herr
            refine ⟨h1, ?_, h3⟩
            simp only [List.filter_cons, ownedBy_create_newDeployment, hname,
              decide_eq_true_eq]
            rw [if_neg hno]
            exact h2
        | some dep =>
          cases hctl : isControlledBy dep.meta foo.meta with
          | false =>
            simp only [synchronizeAux, hf, hd, hctl, Bool.not_false, if_pos] at herr ⊢
            obtain ⟨h1, h2, h3⟩ := ih hnd' hmem' herr
            refine ⟨?_, h2, ?_⟩
            · rw [List.mem_cons]
              constructor
              · intro h
                cases h with
                | inl h => exact absurd h hin
                | inr h => exact h1.mp h
              · intro h
                exact Or.inr (h1.mpr h)
            · intro dep' hdep'
              exact List.mem_cons_of_mem _ (h3 dep' hdep')
          | true =>
            by_cases hrep : foo.spec.replicas = dep.spec.replicas
            · simp only [synchronizeAux, hf, hd, hctl, Bool.not_true, Bool.false_eq_true,
                if_false, if_pos hrep] at herr ⊢
              exact ih hnd' hmem' herr
            · cases hcl : client (ApiCall.update
                  (withResourceVersion (newDeployment foo) dep.meta.resourceVersion)) with
              | some e =>
                simp [synchronizeAux, hf, hd, hctl, hrep, hcl] at herr
              | none =>
                simp only [synchronizeAux, hf, hd, hctl, Bool.not_true, Bool.false_eq_true,
                  if_false, if_neg hrep, hcl] at herr ⊢
                obtain ⟨h1, h2, h3⟩ := ih hnd' hmem' herr
                refine ⟨h1, ?_, h3⟩
                simp only [List.filter_cons, ownedBy_update_withRV, hname,
                  decide_eq_true_eq]
                rw [if_neg hno]
                exact h2

theorem syncAux_todo_eq_filter (client : ApiCall → Option String)
    (foos : List (String × Foo)) (deps : List (String × Deployment)) :
    ∀ l, (synchronizeAux client foos deps l).error = none →
      (synchronizeAux client foos deps l).todo = l.filter (keepsDirty foos deps) := by
  intro l
  induction l with
  | nil => intro _; simp [synchronizeAux]
  | cons n rest ih =>
    intro herr
    cases hf : alookup foos n with
    | none =>
      simp only [synchronizeAux, hf] at herr ⊢
      have hk : keepsDirty foos deps n = false := by simp [keepsDirty, classify, hf]
      simp [List.filter_cons, hk, ih herr]
    | some foo =>
      cases hd : alookup deps foo.spec.deploymentName with
      | none =>
        cases hcl : client (ApiCall.create (newDeployment foo)) with
        | some e => simp [synchronizeAux, hf, hd, hcl] at herr
        | none =>
          simp only [synchronizeAux, hf, hd, hcl] at herr ⊢
          have hk : keepsDirty foos deps n = false := by
            simp [keepsDirty, classify, hf, hd]
          simp [List.filter_cons, hk, ih herr]
      | some dep =>
        cases hctl : isControlledBy dep.meta foo.meta with
        | false =>
          simp only [synchronizeAux, hf, hd, hctl, Bool.not_false, if_pos] at herr ⊢
          have hk : keepsDirty foos deps n = true := by
            simp [keepsDirty, classify, hf, hd, hctl]
          simp [List.filter_cons, hk, ih herr]
        | true =>
          by_cases hrep : foo.spec.replicas = dep.spec.replicas
          · simp only [synchronizeAux, hf, hd, hctl, Bool.not_true, Bool.false_eq_true,
              if_false, if_pos hrep] at herr ⊢
            have hk : keepsDirty foos deps n = false := by
              simp [keepsDirty, classify, hf, hd, hctl, hrep]
            simp [List.filter_cons, hk, ih herr]
          · cases hcl : client (ApiCall.update
                (withResourceVersion (newDeployment foo) dep.meta.resourceVersion)) with
            | some e => simp [synchronizeAux, hf, hd, hctl, hrep, hcl] at herr
            | none =>
              simp only [synchronizeAux, hf, hd, hctl, Bool.not_true, Bool.false_eq_true,
                if_false, if_neg hrep, hcl] at herr ⊢
              have hk : keepsDirty foos deps n = false := by
                simp [keepsDirty, classify, hf, hd, hctl, hrep]
              simp [List.filter_cons, hk, ih herr]

theorem classify_conflict_elim {foos : List (String × Foo)}
    {deps : List (String × Deployment)} {n : String} {dep : Deployment}
    (h : classify foos deps n = .conflict dep) :
    ∃ foo, alookup foos n = some foo ∧
      alookup deps foo.spec.deploymentName = some dep ∧
      isControlledBy dep.meta foo.meta = false := by
  cases hf : alookup foos n with
  | none => simp [classify, hf] at h
  | some foo =>
    cases hd : alookup deps foo.spec.deploymentName with
    | none => simp [classify, hf, hd] at h
    | some dep' =>
      cases hctl : isControlledBy dep'.meta foo.meta with
      | false =>
        simp only [classify, hf, hd, hctl, Bool.not_false, if_pos,
          ItemAction.conflict.injEq] at h
        subst h
        exact ⟨foo, rfl, hd, hctl⟩
      | true =>
        by_cases hrep : foo.spec.replicas = dep'.spec.replicas
        · simp [classify, hf, hd, hctl, hrep] at h
        · simp [classify, hf, hd, hctl, hrep] at h

theorem syncAux_all_conflict (client : ApiCall → Option String)
    (foos : List (String × Foo)) (deps : List (String × Deployment)) :
    ∀ l, (∀ n ∈ l, keepsDirty foos deps n = true) →
      (synchronizeAux client foos deps l).calls = [] ∧
      (synchronizeAux client foos deps l).error = none ∧
      (synchronizeAux client foos deps l).todo = l := by
  intro l
  induction l with
  | nil => intro _; simp [synchronizeAux]
  | cons n rest ih =>
    intro hall
    have hn := hall n (List.mem_cons_self _ _)
    have hconf : ∃ dep, classify foos deps n = .conflict dep := by
      unfold keepsDirty at hn
      cases hcl : classify foos deps n <;> rw [hcl] at hn
      case conflict dep => exact ⟨dep, rfl⟩
      all_goals cases hn
    obtain ⟨dep, hcf⟩ := hconf
    obtain ⟨foo, hf, hd, hctl⟩ := classify_conflict_elim hcf
    obtain ⟨ihc, ihe, iht⟩ := ih (fun m hm => hall m (List.mem_cons_of_mem _ hm))
    simp only [synchronizeAux, hf, hd, hctl, Bool.not_false, if_pos]
    exact ⟨ihc, ihe, by rw [iht]⟩

theorem syncAux_error_spec (client : ApiCall → Option String)
    (foos : List (String × Foo)) (deps : List (String × Deployment)) :
    ∀ l e, (synchronizeAux client foos deps l).error = some e →
      ∃ pre suf, l = pre ++ suf ∧ suf ≠ [] ∧
        (synchronizeAux client foos deps l).todo =
          pre.filter (keepsDirty foos deps) ++ suf ∧
        ∃ c, (synchronizeAux client foos deps l).calls.getLast? = some c ∧
          client c = some e := by
  intro l
  induction l with
  | nil => intro e h; simp [synchronizeAux] at h
  | cons n rest ih =>
    intro e herr
    cases hf : alookup foos n with
    | none =>
      simp only [synchronizeAux, hf] at herr ⊢
      obtain ⟨pre, suf, hl, hsuf, htodo, c, hlast, hcl⟩ := ih e herr
      have hk : keepsDirty foos deps n = false := by simp [keepsDirty, classify, hf]
      refine ⟨n :: pre, suf, by rw [hl]; rfl, hsuf, ?_, c, hlast, hcl⟩
      simp [List.filter_cons, hk, htodo]
    | some foo =>
      cases hd : alookup deps foo.spec.deploymentName with
      | none =>
        cases hcl0 : client (ApiCall.create (newDeployment foo)) with
        | some e' =>
          simp only [synchronizeAux, hf, hd, hcl0] at herr ⊢
          injection herr with herr
          subst herr
          refine ⟨[], n :: rest, rfl, by simp, by simp, ApiCall.create (newDeployment foo),
            rfl, hcl0⟩
        | none =>
          simp only [synchronizeAux, hf, hd, hcl0] at herr ⊢
          obtain ⟨pre, suf, hl, hsuf, htodo, c, hlast, hcl⟩ := ih e herr
          have hk : keepsDirty foos deps n = false := by
            simp [keepsDirty, classify, hf, hd]
          refine ⟨n :: pre, suf, by rw [hl]; rfl, hsuf, ?_, c, ?_, hcl⟩
          · simp [List.filter_cons, hk, htodo]
          · cases hcalls : (synchronizeAux client foos deps rest).calls with
            | nil => rw [hcalls] at hlast; cases hlast
            | cons a as =>
              rw [hcalls] at hlast
              rw [List.getLast?_cons_cons]
              exact hlast
      | some dep =>
        cases hctl : isControlledBy dep.meta foo.meta with
        | false =>
          simp only [synchronizeAux, hf, hd, hctl, Bool.not_false, if_pos] at herr ⊢
          obtain ⟨pre, suf, hl, hsuf, htodo, c, hlast, hcl⟩ := ih e herr
          have hk : keepsDirty foos deps n = true := by
            simp [keepsDirty, classify, hf, hd, hctl]
          refine ⟨n :: pre, suf, by rw [hl]; rfl, hsuf, ?_, c, hlast, hcl⟩
          simp [List.filter_cons, hk, htodo]
        | true =>
          by_cases hrep : foo.spec.replicas = dep.spec.replicas
          · simp only [synchronizeAux, hf, hd, hctl, Bool.not_true, Bool.false_eq_true,
              if_false, if_pos hrep] at herr ⊢
            obtain ⟨pre, suf, hl, hsuf, htodo, c, hlast, hcl⟩ := ih e herr
            have hk : keepsDirty foos deps n = false := by
              simp [keepsDirty, classify, hf, hd, hctl, hrep]
            refine ⟨n :: pre, suf, by rw [hl]; rfl, hsuf, ?_, c, hlast, hcl⟩
            simp [List.filter_cons, hk, htodo]
          · cases hcl0 : client (ApiCall.update
                (withResourceVersion (newDeployment foo) dep.meta.resourceVersion)) with
            | some e' =>
              simp only [synchronizeAux, hf, hd, hctl, Bool.not_true, Bool.false_eq_true,
                if_false, if_neg hrep, hcl0] at herr ⊢
              injection herr with herr
              subst herr
              refine ⟨[], n :: rest, rfl, by simp, by simp,
                ApiCall.update (withResourceVersion (newDeployment foo)
                  dep.meta.resourceVersion), rfl, hcl0⟩
            | none =>
              simp only [synchronizeAux, hf, hd, hctl, Bool.not_true, Bool.false_eq_true,
                if_false, if_neg hrep, hcl0] at herr ⊢
              obtain ⟨pre, suf, hl, hsuf, htodo, c, hlast, hcl⟩ := ih e herr
              have hk : keepsDirty foos deps n = false := by
                simp [keepsDirty, classify, hf, hd, hctl, hrep]
              refine ⟨n :: pre, suf, by rw [hl]; rfl, hsuf, ?_, c, ?_, hcl⟩
              · simp [List.filter_cons, hk, htodo]
              · cases hcalls : (synchronizeAux client foos deps rest).calls with
                | nil => rw [hcalls] at hlast; cases hlast
                | cons a as =>
                  rw [hcalls] at hlast
                  rw [List.getLast?_cons_cons]
                  exact hlast

theorem runReactor_spec (client : ApiCall → Option String) :
    ∀ (inputs : List ReactorInput) (st : ControllerStatus) (dO fO : Bool)
      (ticks : Nat) (logs : List String),
      (runReactor client st dO fO ticks logs inputs).sent =
        expectedSent (runReactor client st dO fO ticks logs inputs).outcome ∧
      ((runReactor client st dO fO ticks logs inputs).errorsClosed = true ↔
        (runReactor client st dO fO ticks logs inputs).outcome ≠ .running) ∧
      ((runReactor client st dO fO ticks logs inputs).outcome = .closedBoth →
        (runReactor client st dO fO ticks logs inputs).depsOpen = false ∧
        (runReactor client st dO fO ticks logs inputs).foosOpen = false) ∧
      ((runReactor client st dO fO ticks logs inputs).depsOpen = false →
        dO = false ∨ ReactorInput.deploymentsClosed ∈ inputs) ∧
      ((runReactor client st dO fO ticks logs inputs).foosOpen = false →
        fO = false ∨ ReactorInput.foosClosed ∈ inputs) := by
  intro inputs
  induction inputs with
  | nil =>
    intro st dO fO ticks logs
    refine ⟨rfl, by simp [runReactor], ?_, fun h => Or.inl h, fun h => Or.inl h⟩
    intro h
    exact ReactorOutcome.noConfusion h
  | cons input rest ih =>
    intro st dO fO ticks logs
    cases input with
    | deployment e =>
      cases dO with
      | false =>
        have hred : runReactor client st false fO ticks logs
            (ReactorInput.deployment e :: rest) =
            runReactor client st false fO ticks logs rest := by
          simp [runReactor]
        rw [hred]
        obtain ⟨i1, i2, i3, i4, i5⟩ := ih st false fO ticks logs
        refine ⟨i1, i2, i3, fun _ => Or.inl rfl, ?_⟩
        intro h
        rcases i5 h with h' | h'
        · exact Or.inl h'
        · exact Or.inr (List.mem_cons_of_mem _ h')
      | true =>
        cases herr : e.err with
        | some msg =>
          have hred : runReactor client st true fO ticks logs
              (ReactorInput.deployment e :: rest) =
              { outcome := .failed ("Reading deployments: " ++ msg)
                sent := ["Reading deployments: " ++ msg], errorsClosed := true
                status := st, depsOpen := true, foosOpen := fO
                ticks := ticks, logs := logs, remaining := rest } := by
            simp [runReactor, herr]
          rw [hred]
          refine ⟨rfl, by simp, ?_, ?_, fun h => Or.inl h⟩
          · intro h
            exact ReactorOutcome.noConfusion h
          · intro h
            exact Bool.noConfusion h
        | none =>
          have hred : runReactor client st true fO ticks logs
              (ReactorInput.deployment e :: rest) =
              runReactor client (handleDeploymentEvent st e).1 true fO
                (ticks + (handleDeploymentEvent st e).2) logs rest := by
            simp [runReactor, herr]
          rw [hred]
          obtain ⟨i1, i2, i3, i4, i5⟩ :=
            ih (handleDeploymentEvent st e).1 true fO
              (ticks + (handleDeploymentEvent st e).2) logs
          refine ⟨i1, i2, i3, ?_, ?_⟩
          · intro h
            rcases i4 h with h' | h'
            · exact Or.inl h'
            · exact Or.inr (List.mem_cons_of_mem _ h')
          · intro h
            rcases i5 h with h' | h'
            · exact Or.inl h'
            · exact Or.inr (List.mem_cons_of_mem _ h')
    | deploymentsClosed =>
      cases dO with
      | false =>
        have hred : runReactor client st false fO ticks logs
            (ReactorInput.deploymentsClosed :: rest) =
            runReactor client st false fO ticks logs rest := by
          simp [runReactor]
        rw [hred]
        obtain ⟨i1, i2, i3, i4, i5⟩ := ih st false fO ticks logs
        refine ⟨i1, i2, i3, fun _ => Or.inl rfl, ?_⟩
        intro h
        rcases i5 h with h' | h'
        · exact Or.inl h'
        · exact Or.inr (List.mem_cons_of_mem _ h')
      | true =>
        cases fO with
        | true =>
          have hred : runReactor client st true true ticks logs
              (ReactorInput.deploymentsClosed :: rest) =
              runReactor client st false true ticks logs rest := by
            simp [runReactor]
          rw [hred]
          obtain ⟨i1, i2, i3, i4, i5⟩ := ih st false true ticks logs
          refine ⟨i1, i2, i3, fun _ => Or.inr (List.mem_cons_self _ _), ?_⟩
          intro h
          rcases i5 h with h' | h'
          · exact Bool.noConfusion h'
          · exact Or.inr (List.mem_cons_of_mem _ h')
        | false =>
          have hred : runReactor client st true false ticks logs
              (ReactorInput.deploymentsClosed :: rest) =
              { outcome := .closedBoth, sent := [], errorsClosed := true, status := st
                depsOpen := false, foosOpen := false, ticks := ticks, logs := logs
                remaining := rest } := by
            simp [runReactor]
          rw [hred]
          exact ⟨rfl, by simp, fun _ => ⟨rfl, rfl⟩,
            fun _ => Or.inr (List.mem_cons_self _ _), fun _ => Or.inl rfl⟩
    | foo e =>
      cases fO with
      | false =>
        have hred : runReactor client st dO false ticks logs
            (ReactorInput.foo e :: rest) =
            runReactor client st dO false ticks logs rest := by
          simp [runReactor]
        rw [hred]
        obtain ⟨i1, i2, i3, i4, i5⟩ := ih st dO false ticks logs
        refine ⟨i1, i2, i3, ?_, fun _ => Or.inl rfl⟩
        intro h
        rcases i4 h with h' | h'
        · exact Or.inl h'
        · exact Or.inr (List.mem_cons_of_mem _ h')
      | true =>
        cases herr : e.err with
        | some msg =>
          have hred : runReactor client st dO true ticks logs
              (ReactorInput.foo e :: rest) =
              { outcome := .failed ("Reading Foos: " ++ msg)
                sent := ["Reading Foos: " ++ msg], errorsClosed := true
                status := st, depsOpen := dO, foosOpen := true
                ticks := ticks, logs := logs, remaining := rest } := by
            simp [runReactor, herr]
          rw [hred]
          refine ⟨rfl, by simp, ?_, fun h => Or.inl h, ?_⟩
          · intro h
            exact ReactorOutcome.noConfusion h
          · intro h
            exact Bool.noConfusion h
        | none =>
          have hred : runReactor client st dO true ticks logs
              (ReactorInput.foo e :: rest) =
              runReactor client (handleFooEvent st e).1 dO true
                (ticks + (handleFooEvent st e).2) logs rest := by
            simp [runReactor, herr]
          rw [hred]
          obtain ⟨i1, i2, i3, i4, i5⟩ :=
            ih (handleFooEvent st e).1 dO true (ticks + (handleFooEvent st e).2) logs
          refine ⟨i1, i2, i3, ?_, ?_⟩
          · intro h
            rcases i4 h with h' | h'
            · exact Or.inl h'
            · exact Or.inr (List.mem_cons_of_mem _ h')
          · intro h
            rcases i5 h with h' | h'
            · exact Or.inl h'
            · exact Or.inr (List.mem_cons_of_mem _ h')
    | foosClosed =>
      cases fO with
      | false =>
        have hred : runReactor client st dO false ticks logs
            (ReactorInput.foosClosed :: rest) =
            runReactor client st dO false ticks logs rest := by
          simp [runReactor]
        rw [hred]
        obtain ⟨i1, i2, i3, i4, i5⟩ := ih st dO false ticks logs
        refine ⟨i1, i2, i3, ?_, fun _ => Or.inl rfl⟩
        intro h
        rcases i4 h with h' | h'
        · exact Or.inl h'
        · exact Or.inr (List.mem_cons_of_mem _ h')
      | true =>
        cases dO with
        | true =>
          have hred : runReactor client st true true ticks logs
              (ReactorInput.foosClosed :: rest) =
              runReactor client st true false ticks logs rest := by
            simp [runReactor]
          rw [hred]
          obtain ⟨i1, i2, i3, i4, i5⟩ := ih st true false ticks logs
          refine ⟨i1, i2, i3, ?_, fun _ => Or.inr (List.mem_cons_self _ _)⟩
          intro h
          rcases i4 h with h' | h'
          · exact Bool.noConfusion h'
          · exact Or.inr (List.mem_cons_of_mem _ h')
        | false =>
          have hred : runReactor client st false true ticks logs
              (ReactorInput.foosClosed :: rest) =
              { outcome := .closedBoth, sent := [], errorsClosed := true, status := st
                depsOpen := false, foosOpen := false, ticks := ticks, logs := logs
                remaining := rest } := by
            simp [runReactor]
          rw [hred]
          exact ⟨rfl, by simp, fun _ => ⟨rfl, rfl⟩, fun _ => Or.inl rfl,
            fun _ => Or.inr (List.mem_cons_self _ _)⟩
    | tick =>
      cases herr : (synchronize client st).2.error with
      | some msg =>
        cases dO with
        | true =>
          have hred : runReactor client st true fO ticks logs
              (ReactorInput.tick :: rest) =
              runReactor client (synchronize client st).1 true fO (ticks + 1)
                (logs ++ ["Synchronize failed, will retry: " ++ msg]) rest := by
            simp [runReactor, herr]
          rw [hred]
          obtain ⟨i1, i2, i3, i4, i5⟩ :=
            ih (synchronize client st).1 true fO (ticks + 1)
              (logs ++ ["Synchronize failed, will retry: " ++ msg])
          refine ⟨i1, i2, i3, ?_, ?_⟩
          · intro h
            rcases i4 h with h' | h'
            · exact Or.inl h'
            · exact Or.inr (List.mem_cons_of_mem _ h')
          · intro h
            rcases i5 h with h' | h'
            · exact Or.inl h'
            · exact Or.inr (List.mem_cons_of_mem _ h')
        | false =>
          cases fO with
          | true =>
            have hred : runReactor client st false true ticks logs
                (ReactorInput.tick :: rest) =
                runReactor client (synchronize client st).1 false true (ticks + 1)
                  (logs ++ ["Synchronize failed, will retry: " ++ msg]) rest := by
              simp [runReactor, herr]
            rw [hred]
            obtain ⟨i1, i2, i3, i4, i5⟩ :=
              ih (synchronize client st).1 false true (ticks + 1)
                (logs ++ ["Synchronize failed, will retry: " ++ msg])
            refine ⟨i1, i2, i3, fun _ => Or.inl rfl, ?_⟩
            intro h
            rcases i5 h with h' | h'
            · exact Bool.noConfusion h'
            · exact Or.inr (List.mem_cons_of_mem _ h')
          | false =>
            have hred : runReactor client st false false ticks logs
                (ReactorInput.tick :: rest) =
                { outcome := .closedBoth, sent := [], errorsClosed := true
                  status := (synchronize client st).1, depsOpen := false
                  foosOpen := false, ticks := ticks + 1
                  logs := logs ++ ["Synchronize failed, will retry: " ++ msg]
                  remaining := rest } := by
              simp [runReactor, herr]
            rw [hred]
            exact ⟨rfl, by simp, fun _ => ⟨rfl, rfl⟩, fun _ => Or.inl rfl,
              fun _ => Or.inl rfl⟩
      | none =>
        cases dO with
        | true =>
          have hred : runReactor client st true fO ticks logs
              (ReactorInput.tick :: rest) =
              runReactor client (synchronize client st).1 true fO ticks logs rest := by
            simp [runReactor, herr]
          rw [hred]
          obtain ⟨i1, i2, i3, i4, i5⟩ :=
            ih (synchronize client st).1 true fO ticks logs
          refine ⟨i1, i2, i3, ?_, ?_⟩
          · intro h
            rcases i4 h with h' | h'
            · exact Or.inl h'
            · exact Or.inr (List.mem_cons_of_mem _ h')
          · intro h
            rcases i5 h with h' | h'
            · exact Or.inl h'
            · exact Or.inr (List.mem_cons_of_mem _ h')
        | false =>
          cases fO with
          | true =>
            have hred : runReactor client st false true ticks logs
                (ReactorInput.tick :: rest) =
                runReactor client (synchronize client st).1 false true ticks logs rest := by
              simp [runReactor, herr]
            rw [hred]
            obtain ⟨i1, i2, i3, i4, i5⟩ :=
              ih (synchronize client st).1 false true ticks logs
            refine ⟨i1, i2, i3, fun _ => Or.inl rfl, ?_⟩
            intro h
            rcases i5 h with h' | h'
            · exact Bool.noConfusion h'
            · exact Or.inr (List.mem_cons_of_mem _ h')
          | false =>
            have hred : runReactor client st false false ticks logs
                (ReactorInput.tick :: rest) =
                { outcome := .closedBoth, sent := [], errorsClosed := true
                  status := (synchronize client st).1, depsOpen := false
                  foosOpen := false, ticks := ticks, logs := logs
                  remaining := rest } := by
              simp [runReactor, herr]
            rw [hred]
            exact ⟨rfl, by simp, fun _ => ⟨rfl, rfl⟩, fun _ => Or.inl rfl,
              fun _ => Or.inl rfl⟩

/-- C1: for every dirty name whose Foo exists and whose target
deployment is absent from the managed map, a successfully completing
synchronize pass issues exactly one create call for that Foo, whose
payload name is the Foo's deploymentName, whose replica count is the
Foo's replicas, and whose owner references are the single controller
reference naming the Foo; the name is removed from the dirty set. -/
theorem C1_create_for_missing_deployment (client : ApiCall → Option String)
    (st : ControllerStatus) (item : String) (foo : Foo)
    (hwf : FoosWellFormed st.foos) (hnd : st.todo.Nodup) (hmem : item ∈ st.todo)
    (hfoo : alookup st.foos item = some foo)
    (hdep : alookup st.deployments foo.spec.deploymentName = none)
    (herr : (synchronize client st).2.error = none) :
    (synchronize client st).2.calls.filter (ownedBy item) =
      [ApiCall.create (newDeployment foo)] ∧
    (newDeployment foo).meta.name = foo.spec.deploymentName ∧
    (newDeployment foo).spec.replicas = foo.spec.replicas ∧
    (∃ ref, (newDeployment foo).meta.ownerReferences = [ref] ∧
      ref.kind = Kind ∧ ref.name = foo.meta.name ∧ ref.controller = true) ∧
    item ∉ (synchronize client st).1.todo := by
  have herr' : (synchronizeAux client st.foos st.deployments st.todo).error = none := herr
  have h := syncAux_item_spec client st.deployments hwf item st.todo hnd hmem herr'
  have hcls : classify st.foos st.deployments item = .doCreate (newDeployment foo) := by
    simp [classify, hfoo, hdep]
  refine ⟨?_, rfl, rfl, ⟨newControllerRef foo.meta Group Version Kind, rfl, rfl, rfl, rfl⟩, ?_⟩
  · show (synchronizeAux client st.foos st.deployments st.todo).calls.filter (ownedBy item) = _
    rw [h.2.1]
    simp [callsFor, hcls]
  · intro hmem'
    have hmem'' : item ∈ (synchronizeAux client st.foos st.deployments st.todo).todo := hmem'
    have := h.1.mp hmem''
    rw [show keepsDirty st.foos st.deployments item = false by simp [keepsDirty, hcls]] at this
    exact Bool.noConfusion this

/-- C1 witness: the create scenario at a concrete state. -/
theorem C1_witness :
    (synchronize clientOk stCreate).2.calls.filter (ownedBy "x") =
      [ApiCall.create (newDeployment fooW)] ∧
    "x" ∉ (synchronize clientOk stCreate).1.todo := by
  have h := C1_create_for_missing_deployment clientOk stCreate "x" fooW
    (by decide) (by decide) (by decide) (by decide) (by decide) (by decide)
  exact ⟨h.1, h.2.2.2.2⟩

/-- C4: for every dirty name with no matching Foo, a successfully
completing synchronize pass removes the name from the dirty set and
issues no call owned by that name. -/
theorem C4_stale_name_dropped (client : ApiCall → Option String)
    (st : ControllerStatus) (item : String)
    (hwf : FoosWellFormed st.foos) (hnd : st.todo.Nodup) (hmem : item ∈ st.todo)
    (hfoo : alookup st.foos item = none)
    (herr : (synchronize client st).2.error = none) :
    item ∉ (synchronize client st).1.todo ∧
    (synchronize client st).2.calls.filter (ownedBy item) = [] := by
  have herr' : (synchronizeAux client st.foos st.deployments st.todo).error = none := herr
  have h := syncAux_item_spec client st.deployments hwf item st.todo hnd hmem herr'
  have hcls : classify st.foos st.deployments item = .drop := by simp [classify, hfoo]
  constructor
  · intro hmem'
    have hmem'' : item ∈ (synchronizeAux client st.foos st.deployments st.todo).todo := hmem'
    have := h.1.mp hmem''
    rw [show keepsDirty st.foos st.deployments item = false by simp [keepsDirty, hcls]] at this
    exact Bool.noConfusion this
  · show (synchronizeAux client st.foos st.deployments st.todo).calls.filter (ownedBy item) = _
    rw [h.2.1]
    simp [callsFor, hcls]

/-- C4 witness: a dirty name with no Foo at a concrete state. -/
theorem C4_witness :
    "ghost" ∉ (synchronize clientOk stDrop).1.todo ∧
    (synchronize clientOk stDrop).2.calls.filter (ownedBy "ghost") = [] := by
  exact C4_stale_name_dropped clientOk stDrop "ghost"
    (by decide) (by decide) (by decide) (by decide) (by decide)

/-- C5: for every dirty name whose Foo exists but whose target
deployment is not controlled by that Foo, a successfully completing
synchronize pass logs the ownership-conflict warning, issues no call
owned by that name, and leaves the name in the dirty set. -/
theorem C5_conflict_left_dirty (client : ApiCall → Option String)
    (st : ControllerStatus) (item : String) (foo : Foo) (dep : Deployment)
    (hwf : FoosWellFormed st.foos) (hnd : st.todo.Nodup) (hmem : item ∈ st.todo)
    (hfoo : alookup st.foos item = some foo)
    (hdep : alookup st.deployments foo.spec.deploymentName = some dep)
    (hctl : isControlledBy dep.meta foo.meta = false)
    (herr : (synchronize client st).2.error = none) :
    item ∈ (synchronize client st).1.todo ∧
    (synchronize client st).2.calls.filter (ownedBy item) = [] ∧
    conflictMsg dep ∈ (synchronize client st).2.logs := by
  have herr' : (synchronizeAux client st.foos st.deployments st.todo).error = none := herr
  have h := syncAux_item_spec client st.deployments hwf item st.todo hnd hmem herr'
  have hcls : classify st.foos st.deployments item = .conflict dep := by
    simp [classify, hfoo, hdep, hctl]
  refine ⟨?_, ?_, h.2.2 dep hcls⟩
  · show item ∈ (synchronizeAux client st.foos st.deployments st.todo).todo
    exact h.1.mpr (by simp [keepsDirty, hcls])
  · show (synchronizeAux client st.foos st.deployments st.todo).calls.filter (ownedBy item) = _
    rw [h.2.1]
    simp [callsFor, hcls]

/-- C5 witness: the foreign-owner scenario at a concrete state. -/
theorem C5_witness :
    "x" ∈ (synchronize clientOk stConflict).1.todo ∧
    conflictMsg depForeign ∈ (synchronize clientOk stConflict).2.logs := by
  have h := C5_conflict_left_dirty clientOk stConflict "x" fooW depForeign
    (by decide) (by decide) (by decide) (by decide) (by decide) (by decide) (by decide)
  exact ⟨h.1, h.2.2⟩

/-- C7: for every dirty name whose Foo exists, whose target deployment
exists and is controlled by the Foo, and whose replica counts differ,
a successfully completing synchronize pass issues for that name
exactly one update call whose payload is the builder output with the
deployment's resource version carried over and the desired replica
count, and no create call; the name is removed from the dirty set. -/
theorem C7_update_carries_token (client : ApiCall → Option String)
    (st : ControllerStatus) (item : String) (foo : Foo) (dep : Deployment)
    (hwf : FoosWellFormed st.foos) (hnd : st.todo.Nodup) (hmem : item ∈ st.todo)
    (hfoo : alookup st.foos item = some foo)
    (hdep : alookup st.deployments foo.spec.deploymentName = some dep)
    (hctl : isControlledBy dep.meta foo.meta = true)
    (hne : foo.spec.replicas ≠ dep.spec.replicas)
    (herr : (synchronize client st).2.error = none) :
    (synchronize client st).2.calls.filter (ownedBy item) =
      [ApiCall.update (withResourceVersion (newDeployment foo) dep.meta.resourceVersion)] ∧
    (withResourceVersion (newDeployment foo) dep.meta.resourceVersion).spec.replicas =
      foo.spec.replicas ∧
    (withResourceVersion (newDeployment foo) dep.meta.resourceVersion).meta.resourceVersion =
      dep.meta.resourceVersion ∧
    (synchronize client st).2.calls.filter (fun c => ownedBy item c && isCreate c) = [] ∧
    item ∉ (synchronize client st).1.todo := by
  have herr' : (synchronizeAux client st.foos st.deployments st.todo).error = none := herr
  have h := syncAux_item_spec client st.deployments hwf item st.todo hnd hmem herr'
  have hcls : classify st.foos st.deployments item =
      .doUpdate (withResourceVersion (newDeployment foo) dep.meta.resourceVersion) := by
    simp [classify, hfoo, hdep, hctl, hne]
  have hfil : (synchronizeAux client st.foos st.deployments st.todo).calls.filter
      (ownedBy item) =
      [ApiCall.update (withResourceVersion (newDeployment foo) dep.meta.resourceVersion)] := by
    rw [h.2.1]
    simp [callsFor, hcls]
  refine ⟨hfil, rfl, rfl, ?_, ?_⟩
  · show (synchronizeAux client st.foos st.deployments st.todo).calls.filter
      (fun c => ownedBy item c && isCreate c) = []
    rw [List.filter_eq_nil]
    intro c hc
    cases hob : ownedBy item c with
    | false => simp [hob]
    | true =>
      have hcmem : c ∈ (synchronizeAux client st.foos st.deployments st.todo).calls.filter
          (ownedBy item) := List.mem_filter.mpr ⟨hc, hob⟩
      rw [hfil] at hcmem
      have : c = ApiCall.update
          (withResourceVersion (newDeployment foo) dep.meta.resourceVersion) := by
        simpa using hcmem
      subst this
      simp
  · intro hmem'
    have hmem'' : item ∈ (synchronizeAux client st.foos st.deployments st.todo).todo := hmem'
    have := h.1.mp hmem''
    rw [show keepsDirty st.foos st.deployments item = false by simp [keepsDirty, hcls]] at this
    exact Bool.noConfusion this

/-- C7 witness: the update scenario at a concrete state. -/
theorem C7_witness :
    (synchronize clientOk stUpdate).2.calls.filter (ownedBy "x") =
      [ApiCall.update (withResourceVersion (newDeployment fooW)
        depOwned.meta.resourceVersion)] ∧
    "x" ∉ (synchronize clientOk stUpdate).1.todo := by
  have h := C7_update_carries_token clientOk stUpdate "x" fooW depOwned
    (by decide) (by decide) (by decide) (by decide) (by decide) (by decide) (by decide)
    (by decide)
  exact ⟨h.1, h.2.2.2.2⟩

/-- C10: frame property of synchronize — for every input state the
foos and deployments maps are returned unchanged and the resulting
todo set is a sublist of the input todo set, whether or not the pass
errors. -/
theorem C10_synchronize_frame (client : ApiCall → Option String) (st : ControllerStatus) :
    (synchronize client st).1.foos = st.foos ∧
    (synchronize client st).1.deployments = st.deployments ∧
    (synchronize client st).1.todo.Sublist st.todo :=
  ⟨rfl, rfl, syncAux_todo_sublist client st.foos st.deployments st.todo⟩

/-- C6: idempotence — if a synchronize pass completes successfully and
the state is unchanged in between, a second pass issues zero create or
update calls. -/
theorem C6_second_pass_no_calls (client : ApiCall → Option String) (st : ControllerStatus)
    (herr : (synchronize client st).2.error = none) :
    (synchronize client ((synchronize client st).1)).2.calls = [] := by
  have herr' : (synchronizeAux client st.foos st.deployments st.todo).error = none := herr
  have htodo := syncAux_todo_eq_filter client st.foos st.deployments st.todo herr'
  have hall : ∀ n ∈ st.todo.filter (keepsDirty st.foos st.deployments),
      keepsDirty st.foos st.deployments n = true :=
    fun n hn => (List.mem_filter.mp hn).2
  have h2 := (syncAux_all_conflict client st.foos st.deployments
    (st.todo.filter (keepsDirty st.foos st.deployments)) hall).1
  show (synchronizeAux client st.foos st.deployments
    (synchronizeAux client st.foos st.deployments st.todo).todo).calls = []
  rw [htodo]
  exact h2

/-- C6 witness: a second pass after the create scenario issues no calls. -/
theorem C6_witness :
    (synchronize clientOk ((synchronize clientOk stCreate).1)).2.calls = [] :=
  C6_second_pass_no_calls clientOk stCreate (by decide)

/-- C8: a create or update error aborts the synchronize pass at once —
the todo list splits into the successfully processed prefix (of which
exactly the conflict names survive) and the untouched suffix headed by
the failing name, the last issued call is the one the client failed,
and the returned error is the client's error; on such a failure the
reactor's tick handler logs the message, asks one more tick, and
continues the loop without terminating and without sending on the
error channel. -/
theorem C8_error_aborts_pass :
    (∀ (client : ApiCall → Option String) (st : ControllerStatus) (e : String),
      (synchronize client st).2.error = some e →
      ∃ pre suf, st.todo = pre ++ suf ∧ suf ≠ [] ∧
        (synchronize client st).1.todo =
          pre.filter (keepsDirty st.foos st.deployments) ++ suf ∧
        ∃ c, (synchronize client st).2.calls.getLast? = some c ∧ client c = some e) ∧
    (∀ (client : ApiCall → Option String) (st : ControllerStatus) (msg : String)
      (dO fO : Bool) (ticks : Nat) (logs : List String) (rest : List ReactorInput),
      (synchronize client st).2.error = some msg → (dO = true ∨ fO = true) →
      runReactor client st dO fO ticks logs (ReactorInput.tick :: rest) =
        runReactor client (synchronize client st).1 dO fO (ticks + 1)
          (logs ++ ["Synchronize failed, will retry: " ++ msg]) rest) := by
  constructor
  · intro client st e herr
    exact syncAux_error_spec client st.foos st.deployments st.todo e herr
  · intro client st msg dO fO ticks logs rest herr hopen
    rcases hopen with h | h
    · subst h
      simp [runReactor, herr]
    · subst h
      cases dO <;> simp [runReactor, herr]

/-- C8 witness: a failing create call at a concrete state, and the
reactor continuing after the failure. -/
theorem C8_witness :
    (∃ pre suf, stCreate.todo = pre ++ suf ∧ suf ≠ [] ∧
      (synchronize clientFail stCreate).1.todo =
        pre.filter (keepsDirty stCreate.foos stCreate.deployments) ++ suf ∧
      ∃ c, (synchronize clientFail stCreate).2.calls.getLast? = some c ∧
        clientFail c = some "boom") ∧
    runReactor clientFail stCreate true true 0 [] [ReactorInput.tick] =
      runReactor clientFail (synchronize clientFail stCreate).1 true true 1
        ["Synchronize failed, will retry: boom"] [] := by
  constructor
  · exact C8_error_aborts_pass.1 clientFail stCreate "boom" (by decide)
  · exact C8_error_aborts_pass.2 clientFail stCreate "boom" true true 0 [] []
      (by decide) (Or.inl rfl)

/-- C9: the reactor closes its error channel exactly when it returns;
a normal return happens only once both close notifications have been
consumed and sends nothing; a delivery error on either watch source is
forwarded as exactly one wrapped message and terminates the loop at
once, whatever the other source's state; while still running nothing
has been sent and the channel is open. -/
theorem C9_reactor_termination (client : ApiCall → Option String)
    (st : ControllerStatus) (inputs : List ReactorInput) :
    ((runReactor client st true true 0 [] inputs).errorsClosed = true ↔
      (runReactor client st true true 0 [] inputs).outcome ≠ .running) ∧
    ((runReactor client st true true 0 [] inputs).outcome = .closedBoth →
      (runReactor client st true true 0 [] inputs).sent = [] ∧
      ReactorInput.deploymentsClosed ∈ inputs ∧ ReactorInput.foosClosed ∈ inputs) ∧
    (∀ msg, (runReactor client st true true 0 [] inputs).outcome = .failed msg →
      (runReactor client st true true 0 [] inputs).sent = [msg] ∧
      (runReactor client st true true 0 [] inputs).errorsClosed = true) ∧
    ((runReactor client st true true 0 [] inputs).outcome = .running →
      (runReactor client st true true 0 [] inputs).sent = [] ∧
      (runReactor client st true true 0 [] inputs).errorsClosed = false) ∧
    (∀ (e : WatchEvent Deployment) (msg : String) (st' : ControllerStatus) (fO : Bool)
      (ticks : Nat) (logs : List String) (rest : List ReactorInput),
      e.err = some msg →
      runReactor client st' true fO ticks logs (ReactorInput.deployment e :: rest) =
        { outcome := .failed ("Reading deployments: " ++ msg)
          sent := ["Reading deployments: " ++ msg], errorsClosed := true
          status := st', depsOpen := true, foosOpen := fO, ticks := ticks
          logs := logs, remaining := rest }) ∧
    (∀ (e : WatchEvent Foo) (msg : String) (st' : ControllerStatus) (dO : Bool)
      (ticks : Nat) (logs : List String) (rest : List ReactorInput),
      e.err = some msg →
      runReactor client st' dO true ticks logs (ReactorInput.foo e :: rest) =
        { outcome := .failed ("Reading Foos: " ++ msg)
          sent := ["Reading Foos: " ++ msg], errorsClosed := true
          status := st', depsOpen := dO, foosOpen := true, ticks := ticks
          logs := logs, remaining := rest }) := by
  obtain ⟨s1, s2, s3, s4, s5⟩ := runReactor_spec client inputs st true true 0 []
  refine ⟨s2, ?_, ?_, ?_, ?_, ?_⟩
  · intro h
    obtain ⟨hd, hf⟩ := s3 h
    refine ⟨by rw [s1, h]; rfl, ?_, ?_⟩
    · rcases s4 hd with h' | h'
      · exact Bool.noConfusion h'
      · exact h'
    · rcases s5 hf with h' | h'
      · exact Bool.noConfusion h'
      · exact h'
  · intro msg h
    constructor
    · rw [s1, h]
      rfl
    · exact s2.mpr (by rw [h]; intro hc; exact ReactorOutcome.noConfusion hc)
  · intro h
    constructor
    · rw [s1, h]
      rfl
    · cases hec : (runReactor client st true true 0 [] inputs).errorsClosed with
      | false => rfl
      | true => exact absurd h (by simpa using s2.mp hec)
  · intro e msg st' fO ticks logs rest he
    simp [runReactor, he]
  · intro e msg st' dO ticks logs rest he
    simp [runReactor, he]

/-- C9 witness: closing both sources at a concrete schedule closes the
channel with nothing sent. -/
theorem C9_witness :
    (runReactor clientOk emptyStatus true true 0 []
      [ReactorInput.deploymentsClosed, ReactorInput.foosClosed]).sent = [] ∧
    (runReactor clientOk emptyStatus true true 0 []
      [ReactorInput.deploymentsClosed, ReactorInput.foosClosed]).errorsClosed = true := by
  have h := C9_reactor_termination clientOk emptyStatus
    [ReactorInput.deploymentsClosed, ReactorInput.foosClosed]
  exact ⟨(h.2.1 (by decide)).1, h.1.mpr (by decide)⟩

/-- C3 counterexample: a deployment event whose only owner reference
has kind `Foo` with the controller flag cleared does not name the Foo
kind as controller, yet the handler marks the owning name dirty and
asks a tick — the code never consults the controller flag, refuting
the claimed equivalence. -/
theorem C3_counterexample :
    (¬ ∃ o ∈ evKindNoController.item.meta.ownerReferences,
        o.kind = Kind ∧ o.controller = true) ∧
    (handleDeploymentEvent emptyStatus evKindNoController).1.todo = ["x"] ∧
    (handleDeploymentEvent emptyStatus evKindNoController).2 = 1 := by
  refine ⟨?_, by decide, by decide⟩
  intro ⟨o, ho, hk, hc⟩
  have : o = refFooNoCtl := by
    simpa [evKindNoController, depKindNoController] using ho
  subst this
  exact Bool.noConfusion hc

/-- C3 amended: a deployment event marks a name dirty (and asks one
tick) iff the record carries an owner reference whose kind equals the
Foo kind, the controller flag being ignored; the name marked is the
owner name of the first such reference; the record itself is stored in
(or, on delete, removed from) the managed map either way, and the
reactor routes non-error deployment events through this handler. -/
theorem C3_kind_only_marks_dirty (client : ApiCall → Option String)
    (st : ControllerStatus) (e : WatchEvent Deployment) :
    ((∀ o ∈ e.item.meta.ownerReferences, o.kind ≠ Kind) →
      (handleDeploymentEvent st e).1.todo = st.todo ∧
      (handleDeploymentEvent st e).2 = 0) ∧
    ((∃ o ∈ e.item.meta.ownerReferences, o.kind = Kind) →
      (handleDeploymentEvent st e).2 = 1 ∧
      ∃ o, e.item.meta.ownerReferences.find? (fun x => decide (x.kind = Kind)) = some o ∧
        o.kind = Kind ∧
        (handleDeploymentEvent st e).1.todo = setInsert st.todo o.name) ∧
    (handleDeploymentEvent st e).1.foos = st.foos ∧
    (handleDeploymentEvent st e).1.deployments =
      (if e.isDelete then erase st.deployments e.item.meta.name
       else upsert st.deployments e.item.meta.name e.item) ∧
    (∀ (fO : Bool) (ticks : Nat) (logs : List String) (rest : List ReactorInput),
      e.err = none →
      runReactor client st true fO ticks logs (ReactorInput.deployment e :: rest) =
        runReactor client (handleDeploymentEvent st e).1 true fO
          (ticks + (handleDeploymentEvent st e).2) logs rest) := by
  cases hfind : e.item.meta.ownerReferences.find? (fun x => decide (x.kind = Kind)) with
  | none =>
    refine ⟨?_, ?_, ?_, ?_, ?_⟩
    · intro _
      constructor <;> simp [handleDeploymentEvent, hfind]
    · intro ⟨o, ho, hk⟩
      have := List.find?_eq_none.mp hfind o ho
      simp [hk] at this
    · simp [handleDeploymentEvent, hfind]
    · simp [handleDeploymentEvent, hfind]
    · intro fO ticks logs rest he
      simp [runReactor, he]
  | some o =>
    have hmem := List.mem_of_find?_eq_some hfind
    have hkind : o.kind = Kind := by
      have := List.find?_some hfind
      simpa using this
    refine ⟨?_, ?_, ?_, ?_, ?_⟩
    · intro hall
      exact absurd hkind (hall o hmem)
    · intro _
      refine ⟨by simp [handleDeploymentEvent, hfind], o, rfl, hkind, ?_⟩
      simp [handleDeploymentEvent, hfind]
    · simp [handleDeploymentEvent, hfind]
    · simp [handleDeploymentEvent, hfind]
    · intro fO ticks logs rest he
      simp [runReactor, he]

/-- C3 witness: the amended behaviour at the concrete
cleared-controller-flag event. -/
theorem C3_witness :
    (handleDeploymentEvent emptyStatus evKindNoController).2 = 1 ∧
    (handleDeploymentEvent emptyStatus evKindNoController).1.todo =
      setInsert emptyStatus.todo "x" := by
  have h := (C3_kind_only_marks_dirty clientOk emptyStatus evKindNoController).2.1
    (by decide)
  obtain ⟨ht, o, hfind, hk, htodo⟩ := h
  have hov : evKindNoController.item.meta.ownerReferences.find?
      (fun x => decide (x.kind = Kind)) = some refFooNoCtl := by decide
  rw [hov] at hfind
  injection hfind with hfind
  refine ⟨ht, ?_⟩
  rw [htodo, ← hfind]
  rfl

/-- C2: in the CRD installer a create result with status code 409 is
treated as success and installation proceeds to the establishment
wait, while a create result with any other status code is returned as
a request error and startAux aborts before any instance watching
begins. -/
theorem C2_schema_conflict_is_success (createResult : Option Nat)
    (events : List (WatchEvent CrdItem)) (client : ApiCall → Option String)
    (inputs : List ReactorInput) :
    (createResult = some 409 →
      addCRD createResult events = (waitEstablished events).map CrdError.watch) ∧
    (∀ code, createResult = some code → code ≠ 409 →
      addCRD createResult events = some (CrdError.request code) ∧
      (startAux client createResult events inputs).watchingStarted = false ∧
      (startAux client createResult events inputs).reactor = none ∧
      (startAux client createResult events inputs).sent =
        ["Could not add CRD: " ++ crdErrorMessage (CrdError.request code)]) := by
  constructor
  · intro h
    subst h
    simp [addCRD]
  · intro code hc hne
    subst hc
    have hcrd : addCRD (some code) events = some (CrdError.request code) := by
      simp [addCRD, hne]
    refine ⟨hcrd, ?_, ?_, ?_⟩ <;> simp [startAux, hcrd]

/-- C2 witness: status 409 proceeds to the establishment wait; status
500 aborts startup before watching. -/
theorem C2_witness :
    addCRD (some 409) [evEstablished] =
      (waitEstablished [evEstablished]).map CrdError.watch ∧
    addCRD (some 500) [] = some (CrdError.request 500) ∧
    (startAux clientOk (some 500) [] []).watchingStarted = false := by
  have h1 := (C2_schema_conflict_is_success (some 409) [evEstablished] clientOk []).1 rfl
  have h2 := (C2_schema_conflict_is_success (some 500) [] clientOk []).2 500 rfl (by decide)
  exact ⟨h1, h2.1, h2.2.1⟩

end SampleController
